import Mathlib

/-!
# drone-gcr: configuration normalisation and subprocess orchestration

A shallow embedding of `main.go` (`preparePlugin`) and `plugin.go`
(`Plugin.Exec` and the command builders) of the drone-gcr plugin.

* Go strings are embedded as `String`.
* An `*exec.Cmd` is the record `Cmd` (path, argument vector with `argv[0]`,
  and the two output writers the program assigns).
* Running a subprocess is an effect.  `Plugin.Exec` is embedded with explicit
  state passing: the state is the log of effects performed so far by the
  thread that executes `Exec` (`List Event`), and the exit status of every
  synchronous `cmd.Run()` is read from an environment `Env` that fixes, for
  each call site, what the external program answers (the i-th readiness probe,
  the login, the k-th command of the batch loop).
* The `go` statement of lines 55-58 is recorded as one `Event.go` carrying the
  value the variable `cmd` holds when the statement is executed.  The closure
  does not copy that value: it reads the variable `cmd` of line 47 when it
  runs, and line 70 assigns the login command to the same variable, so which
  command the goroutine traces and runs depends on scheduling.  The effects of
  the goroutine are therefore not part of the log, and nothing below speaks
  about them.
-/

namespace DroneGcr

/-! ## Constants (`plugin.go`, lines 11-15) -/

def maxRetry : Nat := 15

def dockerBin : String := "/usr/local/bin/docker"

def dockerdBin : String := "/usr/local/bin/dockerd"

/-! ## Data model -/

/-- Plugin parameters (`plugin.go`, lines 18-43). -/
structure Plugin where
  DryRun : Bool
  Debug : Bool
  Registry : String
  AuthKey : String
  StorageDriver : String
  Name : String
  Repo : String
  Dockerfile : String
  Context : String
  Tags : List String
  Args : List String
deriving DecidableEq, Repr

/-- The values the program assigns to `cmd.Stdout` / `cmd.Stderr`;
`unset` is the nil writer of a freshly built command. -/
inductive Writer where
  | unset
  | osStdout
  | osStderr
  | discard
deriving DecidableEq, Repr

/-- The fields of `exec.Cmd` the program reads or writes. -/
structure Cmd where
  Path : String
  Args : List String
  Stdout : Writer
  Stderr : Writer
deriving DecidableEq, Repr

/-- Go `exec.Command(name, arg...)`: `Args` holds the name followed by the
arguments, both writers are nil. -/
def execCommand (name : String) (arg : List String) : Cmd :=
  { Path := name, Args := name :: arg, Stdout := Writer.unset, Stderr := Writer.unset }

/-- A Go `error` value: either the error returned by `cmd.Run()` or a value
built by `fmt.Errorf`. -/
inductive GoError where
  | exit (msg : String)
  | errorf (msg : String)
deriving DecidableEq, Repr

/-- The `Error()` method: the message of the error. -/
def GoError.Error : GoError → String
  | GoError.exit msg => msg
  | GoError.errorf msg => msg

/-- Go `fmt.Errorf("Error authenticating: %s", err)`. -/
def errorfAuthenticating (err : GoError) : GoError :=
  GoError.errorf ("Error authenticating: " ++ err.Error)

/-- Effects performed by `Exec`, in program order. -/
inductive Event where
  /-- The `go` statement of lines 55-58; `cmd` is the value of the captured
  variable at that point. -/
  | go (cmd : Cmd)
  /-- The call `fmt.Println(cmd.Args)` made by `trace`. -/
  | trace (args : List String)
  /-- A synchronous `cmd.Run()`. -/
  | run (cmd : Cmd)
  /-- The call `time.Sleep(time.Second * seconds)`. -/
  | sleep (seconds : Nat)
deriving DecidableEq, Repr

/-- What the external programs answer: `none` is a nil error. -/
structure Env where
  /-- result of `cmd.Run()` in iteration `i` of the polling loop -/
  probe : Nat → Option GoError
  /-- result of running the login command -/
  login : Option GoError
  /-- result of `cmd.Run()` in iteration `k` of the batch loop -/
  batch : Nat → Option GoError

/-- Outcome of `Exec`: the returned error and the effects performed. -/
structure Result where
  err : Option GoError
  log : List Event
deriving DecidableEq, Repr

/-! ## `main.go` -/

/-- Go `strings.Count(s, sep)` for a separator of one byte: the number of
occurrences of that byte in `s`. -/
def stringsCount (s : String) (sep : Char) : Nat :=
  s.data.count sep

/-- Lines 44-47 of `main.go`: concatenate registry and repository name when
the repository has exactly one slash. -/
def qualifyRepo (p : Plugin) : Plugin :=
  if stringsCount p.Repo '/' == 1 then
    { p with Repo := p.Registry ++ "/" ++ p.Repo }
  else
    p

/-- The function `preparePlugin` (`main.go`, lines 37-49).  `yamlUnmarshal` stands for
`yaml.Unmarshal([]byte(p.AuthKey), &p.AuthKey)` of the external YAML library:
it yields the new value of `AuthKey` or an error. -/
def preparePlugin (yamlUnmarshal : String → Except GoError String) (p : Plugin) :
    Except GoError Plugin :=
  match yamlUnmarshal p.AuthKey with
  | Except.error err => Except.error err
  | Except.ok key =>
    let p := { p with AuthKey := key }
    Except.ok (qualifyRepo p)

/-! ## `plugin.go`: command builders -/

def Plugin.cmdLogin (p : Plugin) : Cmd :=
  let args := ["login", "-u", "_json_key", "-p", p.AuthKey, p.Registry]
  execCommand dockerBin args

def Plugin.cmdBuild (p : Plugin) : Cmd :=
  let args := ["build", "--pull=true", "--rm=true", "-t", p.Name, "-f", p.Dockerfile]
  let args := args ++ [p.Context]
  let args := p.Args.foldl (fun args arg => args ++ ["--build-arg", arg]) args
  execCommand dockerBin args

def Plugin.cmdTag (p : Plugin) (tag : String) : Cmd :=
  let target := p.Repo ++ ":" ++ tag
  execCommand dockerBin ["tag", p.Name, target]

def Plugin.cmdPush (p : Plugin) (tag : String) : Cmd :=
  let target := p.Repo ++ ":" ++ tag
  execCommand dockerBin ["push", target]

def Plugin.cmdDaemon (p : Plugin) : Cmd :=
  let args : List String := []
  let args := if p.StorageDriver != "" then args ++ ["-s", p.StorageDriver] else args
  execCommand dockerdBin args

def commandVersion : Cmd :=
  execCommand dockerBin ["version"]

def commandInfo : Cmd :=
  execCommand dockerBin ["info"]

/-! ## `plugin.go`: `Exec` -/

/-- The polling loop of lines 62-68.  The first argument is the number of
iterations left (`maxRetry - i`), the second is `i`. -/
def pollLoop (probe : Nat → Option GoError) : Nat → Nat → List Event → List Event
  | 0, _, log => log
  | n + 1, i, log =>
    let cmd := commandInfo
    let log := log ++ [Event.run cmd]
    match probe i with
    | none => log
    | some _ => pollLoop probe n (i + 1) (log ++ [Event.sleep 1])

/-- Lines 75-86: the command list of the batch loop. -/
def Plugin.cmds (p : Plugin) : List Cmd :=
  let cmds : List Cmd := []
  let cmds := cmds ++ [commandVersion]
  let cmds := cmds ++ [commandInfo]
  let cmds := cmds ++ [p.cmdBuild]
  p.Tags.foldl
    (fun cmds tag =>
      let cmds := cmds ++ [p.cmdTag tag]
      if p.DryRun == false then cmds ++ [p.cmdPush tag] else cmds)
    cmds

/-- The assignments of lines 91-92. -/
def Cmd.toStd (cmd : Cmd) : Cmd :=
  { cmd with Stdout := Writer.osStdout, Stderr := Writer.osStderr }

/-- The batch loop of lines 89-98; `k` is the iteration index. -/
def runBatch (batch : Nat → Option GoError) :
    List Cmd → Nat → List Event → Option GoError × List Event
  | [], _, log => (none, log)
  | cmd :: rest, k, log =>
    let log := log ++ [Event.trace cmd.Args]
    let cmd := cmd.toStd
    let log := log ++ [Event.run cmd]
    match batch k with
    | some err => (some err, log)
    | none => runBatch batch rest (k + 1) log

/-- The method `Plugin.Exec` (`plugin.go`, lines 46-101). -/
def Plugin.Exec (p : Plugin) (env : Env) : Result :=
  let cmd := p.cmdDaemon
  let cmd :=
    if p.Debug then { cmd with Stdout := Writer.osStdout, Stderr := Writer.osStderr }
    else { cmd with Stdout := Writer.discard, Stderr := Writer.discard }
  let log := [Event.go cmd]
  let log := pollLoop env.probe maxRetry 0 log
  let cmd := p.cmdLogin
  let log := log ++ [Event.run cmd]
  match env.login with
  | some err => { err := some (errorfAuthenticating err), log := log }
  | none =>
    let r := runBatch env.batch p.cmds 0 log
    { err := r.1, log := r.2 }

/-! ## Observations on a log -/

/-- The command of a synchronous run event. -/
def Event.ran? : Event → Option Cmd
  | Event.run cmd => some cmd
  | _ => none

/-- The commands run synchronously by the main thread, in order. -/
def ranCmds (log : List Event) : List Cmd :=
  log.filterMap Event.ran?

/-- The argument vectors of the commands run synchronously, in order. -/
def ranArgs (log : List Event) : List (List String) :=
  (ranCmds log).map Cmd.Args

/-- An argument vector of the form `docker push ...`. -/
def isPush (args : List String) : Bool :=
  args[1]? == some "push"

/-- An argument vector of the form `docker tag ...`. -/
def isTag (args : List String) : Bool :=
  args[1]? == some "tag"

/-! ## Auxiliary functions describing a run -/

/-- The daemon command as `Exec` starts it (lines 47-54). -/
def Plugin.daemonCmd (p : Plugin) : Cmd :=
  if p.Debug then
    { p.cmdDaemon with Stdout := Writer.osStdout, Stderr := Writer.osStderr }
  else
    { p.cmdDaemon with Stdout := Writer.discard, Stderr := Writer.discard }

/-- Number of probes the polling loop runs with `n` iterations left at
index `i`. -/
def probeRuns (probe : Nat → Option GoError) : Nat → Nat → Nat
  | 0, _ => 0
  | n + 1, i =>
    match probe i with
    | none => 1
    | some _ => 1 + probeRuns probe n (i + 1)

/-- Number of commands of `cmds` the batch loop runs from index `k`. -/
def batchRuns (batch : Nat → Option GoError) : List Cmd → Nat → Nat
  | [], _ => 0
  | _ :: rest, k =>
    match batch k with
    | some _ => 1
    | none => 1 + batchRuns batch rest (k + 1)

/-- The two events of one iteration of the batch loop. -/
def batchStep (cmd : Cmd) : List Event :=
  [Event.trace cmd.Args, Event.run cmd.toStd]

/-- The commands of the run events of `log` that are not immediately preceded
by a trace of their own argument vector; `prev` is the event before `log`. -/
def untracedFrom : Option Event → List Event → List Cmd
  | _, [] => []
  | prev, Event.run cmd :: rest =>
    if prev = some (Event.trace cmd.Args) then untracedFrom (some (Event.run cmd)) rest
    else cmd :: untracedFrom (some (Event.run cmd)) rest
  | _, Event.go cmd :: rest => untracedFrom (some (Event.go cmd)) rest
  | _, Event.trace args :: rest => untracedFrom (some (Event.trace args)) rest
  | _, Event.sleep n :: rest => untracedFrom (some (Event.sleep n)) rest

/-- The commands run in `log` without a trace immediately before the run. -/
def untracedRuns (log : List Event) : List Cmd :=
  untracedFrom none log

/-- Each command run in `log`, in order, paired with `true` when the event
immediately before the run is the trace of its own argument vector and with
`false` otherwise; `prev` is the event before `log`. -/
def runsWithTraceFrom : Option Event → List Event → List (Cmd × Bool)
  | _, [] => []
  | prev, Event.run cmd :: rest =>
    (cmd, decide (prev = some (Event.trace cmd.Args))) ::
      runsWithTraceFrom (some (Event.run cmd)) rest
  | _, Event.go cmd :: rest => runsWithTraceFrom (some (Event.go cmd)) rest
  | _, Event.trace args :: rest => runsWithTraceFrom (some (Event.trace args)) rest
  | _, Event.sleep n :: rest => runsWithTraceFrom (some (Event.sleep n)) rest

/-- Each command run in `log` with the flag "traced immediately before". -/
def runsWithTrace (log : List Event) : List (Cmd × Bool) :=
  runsWithTraceFrom none log

/-- The argument vector printed by a trace event. -/
def Event.traced? : Event → Option (List String)
  | Event.trace args => some args
  | _ => none

/-- The argument vectors printed by `trace` in `log`, in order. -/
def tracedArgs (log : List Event) : List (List String) :=
  log.filterMap Event.traced?

/-- The last event of `log`, or `prev` when `log` is empty. -/
def lastEvent : Option Event → List Event → Option Event
  | prev, [] => prev
  | _, ev :: rest => lastEvent (some ev) rest

/-- An event that is a trace. -/
def Event.isTrace : Event → Bool
  | Event.trace _ => true
  | _ => false

/-! ## Concrete configurations and environments -/

/-- The configuration `REPO=myorg/myapp`, `REGISTRY=gcr.io`, `TAGS=latest,v2`
with one build argument. -/
def examplePlugin : Plugin :=
  { DryRun := false, Debug := false, Registry := "gcr.io", AuthKey := "key",
    StorageDriver := "", Name := "00000000", Repo := "myorg/myapp",
    Dockerfile := "Dockerfile", Context := ".", Tags := ["latest", "v2"],
    Args := ["A=1"] }

/-- The same configuration in dry-run mode. -/
def exampleDryPlugin : Plugin :=
  { examplePlugin with DryRun := true }

/-- Every subprocess exits with status zero. -/
def allSucceed : Env :=
  { probe := fun _ => none, login := none, batch := fun _ => none }

/-- The daemon answers the third probe; the login is refused. -/
def loginRefused : Env :=
  { probe := fun i => if i < 2 then some (GoError.exit "exit status 1") else none,
    login := some (GoError.exit "exit status 1"),
    batch := fun _ => none }

/-- No probe ever succeeds; the build (batch command 2) fails. -/
def buildFails : Env :=
  { probe := fun _ => some (GoError.exit "exit status 1"),
    login := none,
    batch := fun k => if k = 2 then some (GoError.exit "exit status 2") else none }

/-! # Theorems -/

/-! ## Repository qualification -/

theorem stringsCount_append (s t : String) (c : Char) :
    stringsCount (s ++ t) c = stringsCount s c + stringsCount t c := by
  simp [stringsCount]

theorem stringsCount_slash : stringsCount "/" '/' = 1 := by
  decide

theorem qualifyRepo_Registry (p : Plugin) : (qualifyRepo p).Registry = p.Registry := by
  unfold qualifyRepo
  split <;> rfl

/-- C1. The qualification step of `preparePlugin` sets `Repo` to
`Registry + "/" + Repo` when `Repo` has exactly one slash and leaves it
unchanged when it has none or at least two; `preparePlugin`, when the
decoding of the key succeeds, returns the plugin with exactly that `Repo`. -/
theorem qualifyRepo_spec (p : Plugin) :
    (stringsCount p.Repo '/' = 1 →
        (qualifyRepo p).Repo = p.Registry ++ "/" ++ p.Repo) ∧
    (stringsCount p.Repo '/' = 0 ∨ 2 ≤ stringsCount p.Repo '/' →
        (qualifyRepo p).Repo = p.Repo) ∧
    (∀ (yamlUnmarshal : String → Except GoError String) (q : Plugin),
        preparePlugin yamlUnmarshal p = Except.ok q → q.Repo = (qualifyRepo p).Repo) := by
  refine ⟨?_, ?_, ?_⟩
  · intro h
    simp [qualifyRepo, h]
  · intro h
    have h1 : stringsCount p.Repo '/' ≠ 1 := by omega
    simp [qualifyRepo, h1]
  · intro yamlUnmarshal q h
    unfold preparePlugin at h
    split at h
    · cases h
    · injection h with h
      subst h
      unfold qualifyRepo
      split <;> rfl

/-- C9. Applying the qualification step to an already qualified plugin changes
nothing: no second registry part is added, whatever registry and repository. -/
theorem qualifyRepo_idempotent (p : Plugin) :
    qualifyRepo (qualifyRepo p) = qualifyRepo p := by
  by_cases h : stringsCount p.Repo '/' = 1
  · have hq : qualifyRepo p = { p with Repo := p.Registry ++ "/" ++ p.Repo } := by
      simp [qualifyRepo, h]
    have hc : stringsCount (p.Registry ++ "/" ++ p.Repo) '/' ≠ 1 := by
      rw [stringsCount_append, stringsCount_append, stringsCount_slash, h]
      omega
    rw [hq]
    simp [qualifyRepo, hc]
  · have hq : qualifyRepo p = p := by
      simp [qualifyRepo, h]
    rw [hq, hq]

/-! ## The shape of the log of `Exec` -/

theorem pollLoop_append (probe : Nat → Option GoError) (n i : Nat) (log : List Event) :
    pollLoop probe n i log = log ++ pollLoop probe n i [] := by
  induction n generalizing i log with
  | zero => simp [pollLoop]
  | succ n ih =>
    simp only [pollLoop]
    cases probe i with
    | none => simp
    | some e =>
      simp only
      rw [ih (i + 1) (log ++ [Event.run commandInfo] ++ [Event.sleep 1]),
        ih (i + 1) ([] ++ [Event.run commandInfo] ++ [Event.sleep 1])]
      simp

theorem ranCmds_append (l₁ l₂ : List Event) :
    ranCmds (l₁ ++ l₂) = ranCmds l₁ ++ ranCmds l₂ := by
  simp [ranCmds]

theorem ranCmds_pollLoop (probe : Nat → Option GoError) (n i : Nat) :
    ranCmds (pollLoop probe n i []) = List.replicate (probeRuns probe n i) commandInfo := by
  induction n generalizing i with
  | zero => simp [pollLoop, probeRuns, ranCmds]
  | succ n ih =>
    simp only [pollLoop, probeRuns]
    cases probe i with
    | none => simp [ranCmds, Event.ran?]
    | some e =>
      simp only
      rw [pollLoop_append, ranCmds_append, ih (i + 1), Nat.add_comm 1, List.replicate_succ]
      simp [ranCmds, Event.ran?]

theorem probeRuns_le (probe : Nat → Option GoError) (n i : Nat) :
    probeRuns probe n i ≤ n := by
  induction n generalizing i with
  | zero => simp [probeRuns]
  | succ n ih =>
    simp only [probeRuns]
    cases probe i with
    | none => simp
    | some e =>
      have := ih (i + 1)
      simp only
      omega

theorem probeRuns_eq (probe : Nat → Option GoError) (n i f : Nat)
    (hfail : ∀ j, j < f → probe (i + j) ≠ none)
    (hok : f < n → probe (i + f) = none) :
    probeRuns probe n i = min (f + 1) n := by
  induction n generalizing i f with
  | zero => simp [probeRuns]
  | succ n ih =>
    simp only [probeRuns]
    cases f with
    | zero =>
      have h0 : probe i = none := by simpa using hok (Nat.succ_pos n)
      rw [h0]
      simp
    | succ f =>
      have h0 : probe i ≠ none := by simpa using hfail 0 (Nat.succ_pos f)
      cases hp : probe i with
      | none => exact absurd hp h0
      | some e =>
        simp only
        have := ih (i + 1) f
          (fun j hj => by
            have := hfail (j + 1) (by omega)
            rwa [show i + (j + 1) = i + 1 + j by omega] at this)
          (fun hf => by
            have := hok (by omega)
            rwa [show i + (f + 1) = i + 1 + f by omega] at this)
        rw [this]
        omega

theorem cmds_foldl (p : Plugin) (tags : List String) (init : List Cmd) :
    tags.foldl
      (fun cmds tag =>
        let cmds := cmds ++ [p.cmdTag tag]
        if p.DryRun == false then cmds ++ [p.cmdPush tag] else cmds)
      init
    = init ++ tags.flatMap (fun tag =>
        if p.DryRun = false then [p.cmdTag tag, p.cmdPush tag] else [p.cmdTag tag]) := by
  induction tags generalizing init with
  | nil => simp
  | cons t ts ih =>
    simp only [List.foldl_cons, List.flatMap_cons]
    rw [ih]
    cases p.DryRun <;> simp

theorem cmds_eq (p : Plugin) :
    p.cmds = [commandVersion, commandInfo, p.cmdBuild] ++
      p.Tags.flatMap (fun tag =>
        if p.DryRun = false then [p.cmdTag tag, p.cmdPush tag] else [p.cmdTag tag]) := by
  unfold Plugin.cmds
  simp only []
  rw [cmds_foldl]
  simp

theorem runBatch_eq (batch : Nat → Option GoError) (cmds : List Cmd) (k : Nat)
    (log : List Event) :
    (runBatch batch cmds k log).2 =
      log ++ (cmds.take (batchRuns batch cmds k)).flatMap batchStep := by
  induction cmds generalizing k log with
  | nil => simp [runBatch, batchRuns]
  | cons c cs ih =>
    simp only [runBatch, batchRuns]
    cases batch k with
    | some e => simp [batchStep]
    | none =>
      simp only
      rw [ih]
      simp [batchStep, Nat.add_comm 1]

theorem runBatch_err_log (batch : Nat → Option GoError) (cmds : List Cmd) (k : Nat)
    (log log' : List Event) :
    (runBatch batch cmds k log).1 = (runBatch batch cmds k log').1 := by
  induction cmds generalizing k log log' with
  | nil => simp [runBatch]
  | cons c cs ih =>
    simp only [runBatch]
    cases batch k with
    | some e => simp
    | none => exact ih _ _ _

theorem runBatch_ok (batch : Nat → Option GoError) (cmds : List Cmd) (k : Nat)
    (log : List Event) (h : ∀ j, j < cmds.length → batch (k + j) = none) :
    (runBatch batch cmds k log).1 = none ∧ batchRuns batch cmds k = cmds.length := by
  induction cmds generalizing k log with
  | nil => simp [runBatch, batchRuns]
  | cons c cs ih =>
    have h0 : batch k = none := by simpa using h 0 (by simp)
    simp only [runBatch, batchRuns, h0]
    have := ih (k + 1) (log ++ [Event.trace c.Args] ++ [Event.run c.toStd])
      (fun j hj => by
        have := h (j + 1) (by simpa using hj)
        rwa [show k + (j + 1) = k + 1 + j by omega] at this)
    refine ⟨this.1, ?_⟩
    rw [this.2]
    simp [Nat.add_comm]

theorem runBatch_fail (batch : Nat → Option GoError) (cmds : List Cmd) (k m : Nat)
    (log : List Event) (e : GoError) (hm : m < cmds.length)
    (hbefore : ∀ j, j < m → batch (k + j) = none) (hfail : batch (k + m) = some e) :
    (runBatch batch cmds k log).1 = some e ∧ batchRuns batch cmds k = m + 1 := by
  induction cmds generalizing k m log with
  | nil => simp at hm
  | cons c cs ih =>
    cases m with
    | zero =>
      have h0 : batch k = some e := by simpa using hfail
      simp [runBatch, batchRuns, h0]
    | succ m =>
      have h0 : batch k = none := by simpa using hbefore 0 (Nat.succ_pos m)
      simp only [runBatch, batchRuns, h0]
      have := ih (k + 1) m (log ++ [Event.trace c.Args] ++ [Event.run c.toStd])
        (by simpa using hm)
        (fun j hj => by
          have := hbefore (j + 1) (by omega)
          rwa [show k + (j + 1) = k + 1 + j by omega] at this)
        (by rwa [show k + (m + 1) = k + 1 + m by omega] at hfail)
      refine ⟨this.1, ?_⟩
      rw [this.2]
      omega

theorem Exec_log (p : Plugin) (env : Env) :
    (p.Exec env).log =
      Event.go p.daemonCmd :: pollLoop env.probe maxRetry 0 [] ++ [Event.run p.cmdLogin] ++
        (match env.login with
          | some _ => []
          | none => (p.cmds.take (batchRuns env.batch p.cmds 0)).flatMap batchStep) := by
  unfold Plugin.Exec
  simp only []
  rw [pollLoop_append]
  cases env.login with
  | some e =>
    simp only [Plugin.daemonCmd]
    split <;> simp
  | none =>
    simp only [runBatch_eq, Plugin.daemonCmd]
    split <;> simp

theorem Exec_err (p : Plugin) (env : Env) :
    (p.Exec env).err =
      (match env.login with
        | some e => some (errorfAuthenticating e)
        | none => (runBatch env.batch p.cmds 0 []).1) := by
  unfold Plugin.Exec
  simp only []
  cases env.login with
  | some e => rfl
  | none => exact runBatch_err_log _ _ _ _ _

theorem ranCmds_batchSteps (cmds : List Cmd) :
    ranCmds (cmds.flatMap batchStep) = cmds.map Cmd.toStd := by
  induction cmds with
  | nil => simp [ranCmds]
  | cons c cs ih =>
    rw [List.flatMap_cons, ranCmds_append, ih]
    simp [batchStep, ranCmds, Event.ran?]

theorem ranCmds_Exec (p : Plugin) (env : Env) :
    ranCmds (p.Exec env).log =
      List.replicate (probeRuns env.probe maxRetry 0) commandInfo ++ [p.cmdLogin] ++
        (match env.login with
          | some _ => []
          | none => (p.cmds.take (batchRuns env.batch p.cmds 0)).map Cmd.toStd) := by
  rw [Exec_log]
  rw [ranCmds_append, ranCmds_append]
  have h1 : ranCmds (Event.go p.daemonCmd :: pollLoop env.probe maxRetry 0 []) =
      List.replicate (probeRuns env.probe maxRetry 0) commandInfo := by
    rw [← ranCmds_pollLoop]
    simp [ranCmds, Event.ran?]
  rw [h1]
  cases env.login with
  | some e => simp [ranCmds, Event.ran?]
  | none =>
    simp only []
    rw [ranCmds_batchSteps]
    simp [ranCmds, Event.ran?]

theorem toStd_Args (c : Cmd) : c.toStd.Args = c.Args := rfl

theorem cmdBuild_Args (p : Plugin) :
    p.cmdBuild.Args =
      [dockerBin, "build", "--pull=true", "--rm=true", "-t", p.Name, "-f", p.Dockerfile,
        p.Context] ++ p.Args.flatMap (fun arg => ["--build-arg", arg]) := by
  have hfold : ∀ (l init : List String),
      l.foldl (fun args arg => args ++ ["--build-arg", arg]) init =
        init ++ l.flatMap (fun arg => ["--build-arg", arg]) := by
    intro l
    induction l with
    | nil => simp
    | cons a l ih =>
      intro init
      simp [ih]
  simp [Plugin.cmdBuild, execCommand, hfold]

theorem cmds_length_push (p : Plugin) (h : p.DryRun = false) :
    p.cmds.length = 3 + 2 * p.Tags.length := by
  rw [cmds_eq]
  simp only [h, if_true, List.length_append, List.length_cons, List.length_nil]
  have : ∀ l : List String,
      (l.flatMap (fun tag => [p.cmdTag tag, p.cmdPush tag])).length = 2 * l.length := by
    intro l
    induction l with
    | nil => simp
    | cons a l ih =>
      rw [List.flatMap_cons, List.length_append, ih]
      simp
      omega
  rw [this]

theorem cmds_length_dry (p : Plugin) (h : p.DryRun = true) :
    p.cmds.length = 3 + p.Tags.length := by
  rw [cmds_eq]
  simp only [h, List.length_append, List.length_cons, List.length_nil]
  have : ∀ l : List String,
      (l.flatMap (fun tag =>
        if true = false then [p.cmdTag tag, p.cmdPush tag] else [p.cmdTag tag])).length
        = l.length := by
    intro l
    induction l with
    | nil => simp
    | cons a l ih =>
      rw [List.flatMap_cons, List.length_append, ih]
      simp
      omega
  rw [this]

theorem runBatch_none_iff (batch : Nat → Option GoError) (cmds : List Cmd) (k : Nat)
    (log : List Event) :
    (runBatch batch cmds k log).1 = none ↔ ∀ j, j < cmds.length → batch (k + j) = none := by
  constructor
  · induction cmds generalizing k log with
    | nil => intro _ j hj; simp at hj
    | cons c cs ih =>
      intro h j hj
      simp only [runBatch] at h
      cases hb : batch k with
      | some e => simp [hb] at h
      | none =>
        simp only [hb] at h
        cases j with
        | zero => simpa using hb
        | succ j =>
          have := ih (k + 1) _ h j (by simpa using hj)
          rwa [show k + 1 + j = k + (j + 1) by omega] at this
  · intro h
    exact (runBatch_ok batch cmds k log h).1

/-! ## Argument vectors of a run -/

theorem commandInfo_Args : commandInfo.Args = [dockerBin, "info"] := rfl

theorem commandVersion_Args : commandVersion.Args = [dockerBin, "version"] := rfl

theorem cmdLogin_Args (p : Plugin) :
    p.cmdLogin.Args = [dockerBin, "login", "-u", "_json_key", "-p", p.AuthKey, p.Registry] :=
  rfl

theorem cmdTag_Args (p : Plugin) (tag : String) :
    (p.cmdTag tag).Args = [dockerBin, "tag", p.Name, p.Repo ++ ":" ++ tag] := rfl

theorem cmdPush_Args (p : Plugin) (tag : String) :
    (p.cmdPush tag).Args = [dockerBin, "push", p.Repo ++ ":" ++ tag] := rfl

theorem ranArgs_Exec (p : Plugin) (env : Env) :
    ranArgs (p.Exec env).log =
      List.replicate (probeRuns env.probe maxRetry 0) commandInfo.Args ++ [p.cmdLogin.Args] ++
        (match env.login with
          | some _ => []
          | none => (p.cmds.take (batchRuns env.batch p.cmds 0)).map Cmd.Args) := by
  unfold ranArgs
  rw [ranCmds_Exec]
  cases env.login with
  | some e => simp
  | none =>
    simp only [List.map_append, List.map_replicate, List.map_cons, List.map_nil,
      List.map_map]
    congr 1

theorem cmds_Args (p : Plugin) :
    p.cmds.map Cmd.Args =
      [commandVersion.Args, commandInfo.Args, p.cmdBuild.Args] ++
        p.Tags.flatMap (fun tag =>
          if p.DryRun = false then
            [[dockerBin, "tag", p.Name, p.Repo ++ ":" ++ tag],
              [dockerBin, "push", p.Repo ++ ":" ++ tag]]
          else [[dockerBin, "tag", p.Name, p.Repo ++ ":" ++ tag]]) := by
  rw [cmds_eq, List.map_append, List.map_flatMap]
  congr 1
  congr 1
  funext tag
  cases p.DryRun <;> rfl

/-- The argument vectors run by `Exec` when the login and all batch commands
succeed. -/
theorem ranArgs_Exec_ok (p : Plugin) (env : Env) (hlogin : env.login = none)
    (hbatch : ∀ k, k < p.cmds.length → env.batch k = none) :
    (p.Exec env).err = none ∧
    ranArgs (p.Exec env).log =
      List.replicate (probeRuns env.probe maxRetry 0) commandInfo.Args ++
        [p.cmdLogin.Args, commandVersion.Args, commandInfo.Args, p.cmdBuild.Args] ++
        p.Tags.flatMap (fun tag =>
          if p.DryRun = false then
            [[dockerBin, "tag", p.Name, p.Repo ++ ":" ++ tag],
              [dockerBin, "push", p.Repo ++ ":" ++ tag]]
          else [[dockerBin, "tag", p.Name, p.Repo ++ ":" ++ tag]]) := by
  have hok := runBatch_ok env.batch p.cmds 0 [] (by simpa using hbatch)
  constructor
  · rw [Exec_err, hlogin]
    exact hok.1
  · rw [ranArgs_Exec, hlogin]
    simp only [hok.2, List.take_length, cmds_Args]
    simp

theorem isPush_build (p : Plugin) : isPush p.cmdBuild.Args = false := by
  rw [cmdBuild_Args]
  rfl

theorem isTag_build (p : Plugin) : isTag p.cmdBuild.Args = false := by
  rw [cmdBuild_Args]
  rfl

theorem filter_isTag_tags (p : Plugin) (tags : List String) :
    (tags.flatMap (fun tag =>
        if p.DryRun = false then
          [[dockerBin, "tag", p.Name, p.Repo ++ ":" ++ tag],
            [dockerBin, "push", p.Repo ++ ":" ++ tag]]
        else [[dockerBin, "tag", p.Name, p.Repo ++ ":" ++ tag]])).filter isTag =
      tags.map (fun tag => [dockerBin, "tag", p.Name, p.Repo ++ ":" ++ tag]) := by
  induction tags with
  | nil => rfl
  | cons t ts ih =>
    rw [List.flatMap_cons, List.filter_append, ih]
    cases p.DryRun <;> simp [isTag]

theorem filter_isPush_tags (p : Plugin) (tags : List String) (h : p.DryRun = false) :
    (tags.flatMap (fun tag =>
        if p.DryRun = false then
          [[dockerBin, "tag", p.Name, p.Repo ++ ":" ++ tag],
            [dockerBin, "push", p.Repo ++ ":" ++ tag]]
        else [[dockerBin, "tag", p.Name, p.Repo ++ ":" ++ tag]])).filter isPush =
      tags.map (fun tag => [dockerBin, "push", p.Repo ++ ":" ++ tag]) := by
  induction tags with
  | nil => rfl
  | cons t ts ih =>
    rw [List.flatMap_cons, List.filter_append, ih]
    simp [h, isPush]

theorem filter_isTag_Exec_ok (p : Plugin) (env : Env) (hlogin : env.login = none)
    (hbatch : ∀ k, k < p.cmds.length → env.batch k = none) :
    (ranArgs (p.Exec env).log).filter isTag =
      p.Tags.map (fun tag => [dockerBin, "tag", p.Name, p.Repo ++ ":" ++ tag]) := by
  rw [(ranArgs_Exec_ok p env hlogin hbatch).2, List.filter_append, List.filter_append,
    filter_isTag_tags]
  have h1 : isTag commandInfo.Args = false := rfl
  have h2 : isTag p.cmdLogin.Args = false := rfl
  have h3 : isTag commandVersion.Args = false := rfl
  simp [List.filter_replicate, h1, h2, h3, isTag_build]

theorem filter_isPush_Exec_ok (p : Plugin) (env : Env) (hdry : p.DryRun = false)
    (hlogin : env.login = none)
    (hbatch : ∀ k, k < p.cmds.length → env.batch k = none) :
    (ranArgs (p.Exec env).log).filter isPush =
      p.Tags.map (fun tag => [dockerBin, "push", p.Repo ++ ":" ++ tag]) := by
  rw [(ranArgs_Exec_ok p env hlogin hbatch).2, List.filter_append, List.filter_append,
    filter_isPush_tags p p.Tags hdry]
  have h1 : isPush commandInfo.Args = false := rfl
  have h2 : isPush p.cmdLogin.Args = false := rfl
  have h3 : isPush commandVersion.Args = false := rfl
  simp [List.filter_replicate, h1, h2, h3, isPush_build]

/-! ## Error handling -/

/-- C4. If the login subprocess fails with error `e`, `Exec` returns the error
with message `"Error authenticating: "` followed by the message of `e`; the only
commands run are the readiness probes and then the login, which is the last
effect: no version, info, build, tag or push command is run. -/
theorem Exec_login_failure (p : Plugin) (env : Env) (e : GoError)
    (h : env.login = some e) :
    (p.Exec env).err = some (GoError.errorf ("Error authenticating: " ++ e.Error)) ∧
    (∃ n, n ≤ maxRetry ∧
      ranCmds (p.Exec env).log = List.replicate n commandInfo ++ [p.cmdLogin]) ∧
    (p.Exec env).log.getLast? = some (Event.run p.cmdLogin) := by
  refine ⟨?_, ⟨probeRuns env.probe maxRetry 0, probeRuns_le _ _ _, ?_⟩, ?_⟩
  · rw [Exec_err, h]
    rfl
  · rw [ranCmds_Exec, h]
    simp
  · rw [Exec_log, h]
    simp only [List.append_nil]
    rw [List.getLast?_concat]

theorem Exec_login_failure_witness :
    (examplePlugin.Exec loginRefused).err =
      some (GoError.errorf "Error authenticating: exit status 1") ∧
    (∃ n, n ≤ maxRetry ∧ ranCmds (examplePlugin.Exec loginRefused).log =
      List.replicate n commandInfo ++ [examplePlugin.cmdLogin]) ∧
    (examplePlugin.Exec loginRefused).log.getLast? =
      some (Event.run examplePlugin.cmdLogin) :=
  Exec_login_failure examplePlugin loginRefused (GoError.exit "exit status 1") rfl

/-- C5. `Exec` returns nil exactly when the login and every command of the
batch list succeed.  When the login succeeds and command `k` of the batch list
(version, info, build, then tag and push per tag) is the first to fail with
error `e`, `Exec` returns `e` itself, and after the login exactly the commands
`0..k` of the list were run, once each and in list order. -/
theorem Exec_first_failure (p : Plugin) (env : Env) :
    ((p.Exec env).err = none ↔
        env.login = none ∧ ∀ k, k < p.cmds.length → env.batch k = none) ∧
    (env.login = none →
      ∀ (k : Nat) (e : GoError), k < p.cmds.length →
        (∀ j, j < k → env.batch j = none) → env.batch k = some e →
        (p.Exec env).err = some e ∧
        ∃ n, n ≤ maxRetry ∧ ranCmds (p.Exec env).log =
          List.replicate n commandInfo ++ [p.cmdLogin] ++
            (p.cmds.take (k + 1)).map Cmd.toStd) := by
  constructor
  · rw [Exec_err]
    cases hl : env.login with
    | some e => simp
    | none =>
      simp only [true_and]
      rw [runBatch_none_iff]
      simp
  · intro hl k e hk hbefore hfail
    have hf := runBatch_fail env.batch p.cmds 0 k [] e hk
      (by simpa using hbefore) (by simpa using hfail)
    refine ⟨?_, probeRuns env.probe maxRetry 0, probeRuns_le _ _ _, ?_⟩
    · rw [Exec_err, hl]
      exact hf.1
    · rw [ranCmds_Exec, hl]
      simp only [hf.2]

theorem Exec_first_failure_witness :
    (examplePlugin.Exec buildFails).err = some (GoError.exit "exit status 2") ∧
    ∃ n, n ≤ maxRetry ∧ ranCmds (examplePlugin.Exec buildFails).log =
      List.replicate n commandInfo ++ [examplePlugin.cmdLogin] ++
        (examplePlugin.cmds.take (2 + 1)).map Cmd.toStd :=
  (Exec_first_failure examplePlugin buildFails).2 rfl 2 (GoError.exit "exit status 2")
    (by decide) (by decide) rfl

/-! ## Readiness polling -/

/-- C8. `Exec` runs the `docker info` probe at most 15 times and then always
runs the login command.  If `f` counts the leading failed probes (the probes
`0..f-1` fail and probe `f` succeeds, or all of the first 15 fail), the probe
is run exactly `min (f + 1) 15` times before the login. -/
theorem Exec_probe_count (p : Plugin) (env : Env) :
    (∃ n rest, n ≤ 15 ∧
      ranCmds (p.Exec env).log = List.replicate n commandInfo ++ p.cmdLogin :: rest) ∧
    (∀ f : Nat, (∀ i, i < f → env.probe i ≠ none) → (f < 15 → env.probe f = none) →
      ∃ rest, ranCmds (p.Exec env).log =
        List.replicate (min (f + 1) 15) commandInfo ++ p.cmdLogin :: rest) := by
  constructor
  · have h := ranCmds_Exec p env
    rw [List.append_assoc, List.singleton_append] at h
    exact ⟨_, _, probeRuns_le _ _ _, h⟩
  · intro f hfail hok
    have hn := probeRuns_eq env.probe maxRetry 0 f (by simpa using hfail) (by simpa using hok)
    have h := ranCmds_Exec p env
    rw [List.append_assoc, List.singleton_append, hn] at h
    exact ⟨_, h⟩

theorem Exec_probe_count_witness :
    ∃ rest, ranCmds (examplePlugin.Exec loginRefused).log =
      List.replicate (min (2 + 1) 15) commandInfo ++ examplePlugin.cmdLogin :: rest :=
  (Exec_probe_count examplePlugin loginRefused).2 2 (by decide) (by decide)

/-! ## Build, tag and push -/

/-- C6 (as stated, refuted). With one build argument the build context is not
the final argument of the build command: it comes before `--build-arg`. -/
theorem cmdBuild_context_not_last :
    examplePlugin.cmdBuild.Args =
      [dockerBin, "build", "--pull=true", "--rm=true", "-t", "00000000", "-f", "Dockerfile",
        ".", "--build-arg", "A=1"] ∧
    examplePlugin.cmdBuild.Args ≠
      [dockerBin, "build", "--pull=true", "--rm=true", "-t", examplePlugin.Name, "-f",
        examplePlugin.Dockerfile] ++
        examplePlugin.Args.flatMap (fun arg => ["--build-arg", arg]) ++
        [examplePlugin.Context] := by
  constructor
  · rfl
  · decide

/-- C6 (amended). The argument vector of the build command is `docker build
--pull=true --rm=true -t Name -f Dockerfile`, then the build context, then one
pair `--build-arg a` for each configured build argument `a`, in order. -/
theorem cmdBuild_argument_vector (p : Plugin) :
    p.cmdBuild.Args =
      [dockerBin, "build", "--pull=true", "--rm=true", "-t", p.Name, "-f", p.Dockerfile,
        p.Context] ++ p.Args.flatMap (fun arg => ["--build-arg", arg]) :=
  cmdBuild_Args p

/-- C2. With `DryRun = false`, when the login, version, info and build
commands and all tag and push commands succeed, `Exec` returns nil and runs,
after the probes, the login, version, info and build, exactly the commands
`tag Name Repo:t`, `push Repo:t` for each configured tag `t` in order and
nothing else: as many tag commands and as many push commands as tags. -/
theorem Exec_tag_push_sequence (p : Plugin) (env : Env) (hdry : p.DryRun = false)
    (hlogin : env.login = none)
    (hbatch : ∀ k, k < 3 + 2 * p.Tags.length → env.batch k = none) :
    (p.Exec env).err = none ∧
    (∃ n, n ≤ maxRetry ∧ ranArgs (p.Exec env).log =
      List.replicate n commandInfo.Args ++
        [p.cmdLogin.Args, commandVersion.Args, commandInfo.Args, p.cmdBuild.Args] ++
        p.Tags.flatMap (fun tag =>
          [[dockerBin, "tag", p.Name, p.Repo ++ ":" ++ tag],
            [dockerBin, "push", p.Repo ++ ":" ++ tag]])) ∧
    ((ranArgs (p.Exec env).log).filter isTag).length = p.Tags.length ∧
    ((ranArgs (p.Exec env).log).filter isPush).length = p.Tags.length := by
  have hb : ∀ k, k < p.cmds.length → env.batch k = none := by
    rw [cmds_length_push p hdry]
    exact hbatch
  have h := ranArgs_Exec_ok p env hlogin hb
  refine ⟨h.1, ⟨probeRuns env.probe maxRetry 0, probeRuns_le _ _ _, ?_⟩, ?_, ?_⟩
  · rw [h.2]
    simp [hdry]
  · rw [filter_isTag_Exec_ok p env hlogin hb]
    simp
  · rw [filter_isPush_Exec_ok p env hdry hlogin hb]
    simp

theorem Exec_tag_push_sequence_witness :
    (examplePlugin.Exec allSucceed).err = none ∧
    (∃ n, n ≤ maxRetry ∧ ranArgs (examplePlugin.Exec allSucceed).log =
      List.replicate n commandInfo.Args ++
        [examplePlugin.cmdLogin.Args, commandVersion.Args, commandInfo.Args,
          examplePlugin.cmdBuild.Args] ++
        examplePlugin.Tags.flatMap (fun tag =>
          [[dockerBin, "tag", examplePlugin.Name, examplePlugin.Repo ++ ":" ++ tag],
            [dockerBin, "push", examplePlugin.Repo ++ ":" ++ tag]])) ∧
    ((ranArgs (examplePlugin.Exec allSucceed).log).filter isTag).length =
      examplePlugin.Tags.length ∧
    ((ranArgs (examplePlugin.Exec allSucceed).log).filter isPush).length =
      examplePlugin.Tags.length :=
  Exec_tag_push_sequence examplePlugin allSucceed rfl rfl (fun _ _ => rfl)

/-- C3. With `DryRun = true`, whatever the subprocesses answer, no command run
by `Exec` (nor the daemon command it starts) is a push command; and when the
login and every batch command succeed, the tag commands run are exactly
`tag Name Repo:t` for each configured tag `t`, once each and in order. -/
theorem Exec_dry_run (p : Plugin) (hdry : p.DryRun = true) :
    (∀ env : Env, ∀ args, args ∈ ranArgs (p.Exec env).log → isPush args = false) ∧
    isPush p.daemonCmd.Args = false ∧
    (∀ env : Env, env.login = none → (∀ k, k < 3 + p.Tags.length → env.batch k = none) →
      (ranArgs (p.Exec env).log).filter isTag =
        p.Tags.map (fun tag => [dockerBin, "tag", p.Name, p.Repo ++ ":" ++ tag])) := by
  refine ⟨?_, ?_, ?_⟩
  · intro env args hmem
    rw [ranArgs_Exec] at hmem
    rcases List.mem_append.1 hmem with h | h
    · rcases List.mem_append.1 h with h | h
      · rw [List.eq_of_mem_replicate h]
        rfl
      · rw [List.mem_singleton.1 h]
        rfl
    · cases hl : env.login with
      | some e => simp [hl] at h
      | none =>
        simp only [hl] at h
        rw [List.map_take] at h
        have h := List.mem_of_mem_take h
        rw [cmds_Args] at h
        rcases List.mem_append.1 h with h | h
        · simp only [List.mem_cons, List.mem_singleton, List.not_mem_nil, or_false] at h
          rcases h with h | h | h
          · rw [h]; rfl
          · rw [h]; rfl
          · rw [h]; exact isPush_build p
        · rw [List.mem_flatMap] at h
          obtain ⟨tag, _, h⟩ := h
          simp only [hdry, Bool.true_eq_false, if_false, List.mem_singleton] at h
          rw [h]
          rfl
  · unfold Plugin.daemonCmd Plugin.cmdDaemon
    split <;> split <;> rfl
  · intro env hlogin hbatch
    have hb : ∀ k, k < p.cmds.length → env.batch k = none := by
      rw [cmds_length_dry p hdry]
      exact hbatch
    exact filter_isTag_Exec_ok p env hlogin hb

theorem Exec_dry_run_witness :
    (ranArgs (exampleDryPlugin.Exec allSucceed).log).filter isTag =
      exampleDryPlugin.Tags.map (fun tag =>
        [dockerBin, "tag", exampleDryPlugin.Name, exampleDryPlugin.Repo ++ ":" ++ tag]) :=
  (Exec_dry_run exampleDryPlugin rfl).2.2 allSucceed rfl (fun _ _ => rfl)

/-- C10. End to end: for a repository with exactly one slash, after
`preparePlugin` succeeds, with `DryRun = false` and the login and all batch
commands succeeding, the push commands run by `Exec` are exactly
`push Registry/Repo:t` for each configured tag `t`, in order. -/
theorem prepare_Exec_push_targets (yamlUnmarshal : String → Except GoError String)
    (p q : Plugin) (env : Env)
    (hprep : preparePlugin yamlUnmarshal p = Except.ok q)
    (hone : stringsCount p.Repo '/' = 1) (hdry : p.DryRun = false)
    (hlogin : env.login = none)
    (hbatch : ∀ k, k < 3 + 2 * p.Tags.length → env.batch k = none) :
    (ranArgs (q.Exec env).log).filter isPush =
      p.Tags.map (fun tag => [dockerBin, "push", p.Registry ++ "/" ++ p.Repo ++ ":" ++ tag]) := by
  unfold preparePlugin at hprep
  split at hprep
  · cases hprep
  · rename_i key _
    injection hprep with hq
    have hq2 : q = { p with AuthKey := key, Repo := p.Registry ++ "/" ++ p.Repo } := by
      rw [← hq]
      simp [qualifyRepo, hone]
    have hqdry : q.DryRun = false := by rw [hq2]; exact hdry
    have hqtags : q.Tags = p.Tags := by rw [hq2]
    have hqrepo : q.Repo = p.Registry ++ "/" ++ p.Repo := by rw [hq2]
    have hb : ∀ k, k < q.cmds.length → env.batch k = none := by
      rw [cmds_length_push q hqdry, hqtags]
      exact hbatch
    rw [filter_isPush_Exec_ok q env hqdry hlogin hb, hqtags, hqrepo]

theorem prepare_Exec_push_targets_witness :
    (ranArgs (({ examplePlugin with Repo := "gcr.io/myorg/myapp" } : Plugin).Exec
        allSucceed).log).filter isPush =
      [[dockerBin, "push", "gcr.io/myorg/myapp:latest"],
        [dockerBin, "push", "gcr.io/myorg/myapp:v2"]] :=
  prepare_Exec_push_targets (fun s => Except.ok s) examplePlugin
    { examplePlugin with Repo := "gcr.io/myorg/myapp" } allSucceed
    rfl (by decide) rfl rfl (fun _ _ => rfl)

theorem qualifyRepo_spec_witness :
    (qualifyRepo examplePlugin).Repo = "gcr.io/myorg/myapp" ∧
    (qualifyRepo { examplePlugin with Repo := "gcr.io/myorg/myapp" }).Repo =
      "gcr.io/myorg/myapp" :=
  ⟨(qualifyRepo_spec examplePlugin).1 (by decide),
    (qualifyRepo_spec { examplePlugin with Repo := "gcr.io/myorg/myapp" }).2.1
      (Or.inr (by decide))⟩

/-! ## Tracing -/

theorem untracedFrom_append (prev : Option Event) (l₁ l₂ : List Event) :
    untracedFrom prev (l₁ ++ l₂) =
      untracedFrom prev l₁ ++ untracedFrom (lastEvent prev l₁) l₂ := by
  induction l₁ generalizing prev with
  | nil => rfl
  | cons ev l ih =>
    rw [List.cons_append]
    cases ev with
    | run cmd =>
      simp only [untracedFrom, lastEvent]
      split
      · exact ih _
      · rw [ih]
        rfl
    | go cmd => exact ih _
    | trace args => exact ih _
    | sleep n => exact ih _

theorem untracedFrom_pollLoop (probe : Nat → Option GoError) (n i : Nat)
    (prev : Event) (hprev : prev.isTrace = false) :
    untracedFrom (some prev) (pollLoop probe n i []) =
        List.replicate (probeRuns probe n i) commandInfo ∧
    ∃ ev, lastEvent (some prev) (pollLoop probe n i []) = some ev ∧ ev.isTrace = false := by
  induction n generalizing i prev with
  | zero => exact ⟨rfl, prev, rfl, hprev⟩
  | succ n ih =>
    have hne : ¬ (some prev = some (Event.trace commandInfo.Args)) := by
      intro h
      injection h with h
      rw [h] at hprev
      cases hprev
    simp only [pollLoop, probeRuns]
    cases probe i with
    | none =>
      simp only [List.nil_append, untracedFrom, hne, if_false, lastEvent]
      exact ⟨rfl, _, rfl, rfl⟩
    | some e =>
      have h := ih (i + 1) (Event.sleep 1) rfl
      have hlog : ([] : List Event) ++ [Event.run commandInfo] ++ [Event.sleep 1] =
          [Event.run commandInfo, Event.sleep 1] := rfl
      simp only [hlog]
      rw [pollLoop_append]
      have h1 : untracedFrom (some prev)
          ([Event.run commandInfo, Event.sleep 1] ++ pollLoop probe n (i + 1) []) =
          commandInfo :: untracedFrom (some (Event.sleep 1)) (pollLoop probe n (i + 1) []) := by
        rw [List.cons_append, List.cons_append, List.nil_append]
        simp only [untracedFrom, hne, if_false]
      have h2 : lastEvent (some prev)
          ([Event.run commandInfo, Event.sleep 1] ++ pollLoop probe n (i + 1) []) =
          lastEvent (some (Event.sleep 1)) (pollLoop probe n (i + 1) []) := rfl
      rw [h1, h2, h.1, Nat.add_comm 1, List.replicate_succ]
      exact ⟨rfl, h.2⟩

theorem untracedFrom_batchSteps (prev : Option Event) (cmds : List Cmd) :
    untracedFrom prev (cmds.flatMap batchStep) = [] := by
  induction cmds generalizing prev with
  | nil => rfl
  | cons c cs ih =>
    rw [List.flatMap_cons]
    have h : untracedFrom prev (batchStep c ++ cs.flatMap batchStep) =
        untracedFrom (some (Event.run c.toStd)) (cs.flatMap batchStep) := by
      unfold batchStep
      rw [List.cons_append, List.cons_append, List.nil_append]
      simp only [untracedFrom, toStd_Args, if_true]
    rw [h, ih]

/-- C7 (as stated, refuted). In a run where every subprocess succeeds, the
first three effects are the start of the daemon goroutine, the run of the
readiness probe and the run of the login: neither run is preceded by a trace. -/
theorem Exec_probe_login_untraced :
    (examplePlugin.Exec allSucceed).log.take 3 =
      [Event.go examplePlugin.daemonCmd, Event.run commandInfo,
        Event.run examplePlugin.cmdLogin] ∧
    untracedRuns (examplePlugin.Exec allSucceed).log ≠ [] := by
  constructor
  · rfl
  · decide

theorem batchRuns_le (batch : Nat → Option GoError) (cmds : List Cmd) (k : Nat) :
    batchRuns batch cmds k ≤ cmds.length := by
  induction cmds generalizing k with
  | nil => simp [batchRuns]
  | cons c cs ih =>
    simp only [batchRuns, List.length_cons]
    cases batch k with
    | some e => simp
    | none =>
      have := ih (k + 1)
      simp only
      omega

theorem Exec_log_take (p : Plugin) (env : Env) :
    ∃ m, m ≤ p.cmds.length ∧
      (p.Exec env).log =
        Event.go p.daemonCmd :: pollLoop env.probe maxRetry 0 [] ++ [Event.run p.cmdLogin] ++
          (p.cmds.take m).flatMap batchStep := by
  have hlog := Exec_log p env
  cases hl : env.login with
  | some e =>
    rw [hl] at hlog
    exact ⟨0, Nat.zero_le _, by rw [hlog]; rfl⟩
  | none =>
    rw [hl] at hlog
    exact ⟨batchRuns env.batch p.cmds 0, batchRuns_le _ _ _, hlog⟩

theorem runsWithTraceFrom_append (prev : Option Event) (l₁ l₂ : List Event) :
    runsWithTraceFrom prev (l₁ ++ l₂) =
      runsWithTraceFrom prev l₁ ++ runsWithTraceFrom (lastEvent prev l₁) l₂ := by
  induction l₁ generalizing prev with
  | nil => rfl
  | cons ev l ih =>
    rw [List.cons_append]
    cases ev with
    | run cmd =>
      simp only [runsWithTraceFrom, lastEvent]
      rw [ih]
      rfl
    | go cmd => exact ih _
    | trace args => exact ih _
    | sleep n => exact ih _

theorem runsWithTraceFrom_pollLoop (probe : Nat → Option GoError) (n i : Nat)
    (prev : Event) (hprev : prev.isTrace = false) :
    runsWithTraceFrom (some prev) (pollLoop probe n i []) =
      List.replicate (probeRuns probe n i) (commandInfo, false) := by
  induction n generalizing i prev with
  | zero => rfl
  | succ n ih =>
    have hne : ¬ (some prev = some (Event.trace commandInfo.Args)) := by
      intro h
      injection h with h
      rw [h] at hprev
      cases hprev
    simp only [pollLoop, probeRuns]
    cases probe i with
    | none =>
      simp only [List.nil_append, runsWithTraceFrom, hne, decide_False]
      rfl
    | some e =>
      have h := ih (i + 1) (Event.sleep 1) rfl
      have hlog : ([] : List Event) ++ [Event.run commandInfo] ++ [Event.sleep 1] =
          [Event.run commandInfo, Event.sleep 1] := rfl
      simp only [hlog]
      rw [pollLoop_append]
      have h1 : runsWithTraceFrom (some prev)
          ([Event.run commandInfo, Event.sleep 1] ++ pollLoop probe n (i + 1) []) =
          (commandInfo, false) ::
            runsWithTraceFrom (some (Event.sleep 1)) (pollLoop probe n (i + 1) []) := by
        rw [List.cons_append, List.cons_append, List.nil_append]
        simp only [runsWithTraceFrom, hne, decide_False]
      rw [h1, h, Nat.add_comm 1, List.replicate_succ]

theorem runsWithTraceFrom_batchSteps (prev : Option Event) (cmds : List Cmd) :
    runsWithTraceFrom prev (cmds.flatMap batchStep) =
      cmds.map (fun c => (c.toStd, true)) := by
  induction cmds generalizing prev with
  | nil => rfl
  | cons c cs ih =>
    rw [List.flatMap_cons, List.map_cons]
    have h : runsWithTraceFrom prev (batchStep c ++ cs.flatMap batchStep) =
        (c.toStd, true) ::
          runsWithTraceFrom (some (Event.run c.toStd)) (cs.flatMap batchStep) := by
      unfold batchStep
      rw [List.cons_append, List.cons_append, List.nil_append]
      simp only [runsWithTraceFrom, toStd_Args, decide_True]
    rw [h, ih]

theorem tracedArgs_append (l₁ l₂ : List Event) :
    tracedArgs (l₁ ++ l₂) = tracedArgs l₁ ++ tracedArgs l₂ := by
  simp [tracedArgs]

theorem tracedArgs_pollLoop (probe : Nat → Option GoError) (n i : Nat) :
    tracedArgs (pollLoop probe n i []) = [] := by
  induction n generalizing i with
  | zero => rfl
  | succ n ih =>
    simp only [pollLoop]
    cases probe i with
    | none => rfl
    | some e =>
      simp only
      rw [pollLoop_append, tracedArgs_append, ih (i + 1)]
      rfl

theorem tracedArgs_batchSteps (cmds : List Cmd) :
    tracedArgs (cmds.flatMap batchStep) = cmds.map Cmd.Args := by
  induction cmds with
  | nil => rfl
  | cons c cs ih =>
    rw [List.flatMap_cons, tracedArgs_append, ih]
    rfl

/-- C7 (amended). In every execution of `Exec`, whatever the `Debug` flag, the
thread executing `Exec` runs `n <= 15` readiness probes and then the login,
none of them with a trace immediately before the run, and then `m` commands of
the batch list (version, info, build, each tag and each push), each of them
with the trace of its own argument vector immediately before the run; the
argument vectors traced by that thread are exactly those of the `m` batch
commands, in order.  Nothing is stated about the daemon goroutine. -/
theorem Exec_traced_runs (p : Plugin) (env : Env) :
    ∃ n m, n ≤ maxRetry ∧ m ≤ p.cmds.length ∧
      runsWithTrace (p.Exec env).log =
        List.replicate n (commandInfo, false) ++ [(p.cmdLogin, false)] ++
          (p.cmds.take m).map (fun c => (c.toStd, true)) ∧
      untracedRuns (p.Exec env).log = List.replicate n commandInfo ++ [p.cmdLogin] ∧
      tracedArgs (p.Exec env).log = (p.cmds.take m).map Cmd.Args := by
  obtain ⟨m, hm, hlog⟩ := Exec_log_take p env
  obtain ⟨hruns, ev, hlast, hev⟩ :=
    untracedFrom_pollLoop env.probe maxRetry 0 (Event.go p.daemonCmd) rfl
  have hflags := runsWithTraceFrom_pollLoop env.probe maxRetry 0 (Event.go p.daemonCmd) rfl
  have hne : ¬ (some ev = some (Event.trace p.cmdLogin.Args)) := by
    intro h
    injection h with h
    rw [h] at hev
    cases hev
  have h2 : lastEvent none (Event.go p.daemonCmd :: pollLoop env.probe maxRetry 0 []) =
      lastEvent (some (Event.go p.daemonCmd)) (pollLoop env.probe maxRetry 0 []) := rfl
  refine ⟨probeRuns env.probe maxRetry 0, m, probeRuns_le _ _ _, hm, ?_, ?_, ?_⟩
  · rw [hlog]
    unfold runsWithTrace
    rw [runsWithTraceFrom_append, runsWithTraceFrom_batchSteps, runsWithTraceFrom_append]
    have h1 : runsWithTraceFrom none
        (Event.go p.daemonCmd :: pollLoop env.probe maxRetry 0 []) =
        runsWithTraceFrom (some (Event.go p.daemonCmd)) (pollLoop env.probe maxRetry 0 []) :=
      rfl
    rw [h1, h2, hflags, hlast]
    simp only [runsWithTraceFrom, hne, decide_False]
  · rw [hlog]
    unfold untracedRuns
    rw [untracedFrom_append, untracedFrom_batchSteps, List.append_nil, untracedFrom_append]
    have h1 : untracedFrom none (Event.go p.daemonCmd :: pollLoop env.probe maxRetry 0 []) =
        untracedFrom (some (Event.go p.daemonCmd)) (pollLoop env.probe maxRetry 0 []) := rfl
    rw [h1, h2, hruns, hlast]
    simp only [untracedFrom, hne, if_false]
  · rw [hlog, tracedArgs_append, tracedArgs_append, tracedArgs_batchSteps]
    have h1 : tracedArgs (Event.go p.daemonCmd :: pollLoop env.probe maxRetry 0 []) =
        tracedArgs (pollLoop env.probe maxRetry 0 []) := rfl
    rw [h1, tracedArgs_pollLoop]
    rfl

end DroneGcr
